import Mathlib

/-!
# Verification of the Intel-HEX extraction core of `hex_tool.cpp`

This file gives a shallow embedding of the hex-extraction core of
`src/Docs/Hex_Tool/hex_tool.cpp` (the `crc32` function and the body of `main`
after command-line parsing), and proves / refutes the frozen specification
claims about it.

The embedding models:
* `std::string::substr(pos, len)` (throwing when `pos > size()`) as `substr?`;
* `std::stoi(s, nullptr, 16)` (strtol prefix semantics: optional whitespace,
  sign and `0x` prefix, longest hex-digit run, failure when no digit, int
  range check) as `stoiHex?`, with `Option` modelling the thrown exception;
* the `uint8_t`/`uint16_t` conversions of the parsed `int`s as `u8`/`u16`;
* `std::map<uint32_t, uint8_t>` as an association list sorted by key,
  with `mapInsert` modelling `operator[]` assignment;
* the per-line `try`/`catch` loop of `main` as `processLine`/`processLines`
  over a state carrying the memory map, the rolling extended linear address,
  the warnings emitted so far, and whether the end-of-file record broke the
  loop;
* the output-buffer construction and `dataFoundInRange` flag as
  `buildBinaryData`, and the whole post-argument pipeline as `runHexTool`
  (`none` = the fatal "No data found within the specified address range"
  exit before any file is written).

Machine integers are `Nat` with explicit `% 2^32` exactly where the C++
computation can wrap (`byteAddress = currentAddress + i` and
`endAddress = startAddress + bankSize`).
-/

/-- Numeric value of a hexadecimal digit character, `none` for non-digits. -/
def hexDigit? (c : Char) : Option Nat :=
  if '0' ≤ c ∧ c ≤ '9' then some (c.toNat - '0'.toNat)
  else if 'a' ≤ c ∧ c ≤ 'f' then some (c.toNat - 'a'.toNat + 10)
  else if 'A' ≤ c ∧ c ≤ 'F' then some (c.toNat - 'A'.toNat + 10)
  else none

/-- The whitespace characters skipped by `strtol` (C locale `isspace`). -/
def isSpaceChar (c : Char) : Bool :=
  c == ' ' || c == '\t' || c == '\n' || c == '\x0b' || c == '\x0c' || c == '\r'

/-- Accumulate the longest leading run of hex digits, as `strtol` does. -/
def hexAcc : Nat → List Char → Nat
  | acc, [] => acc
  | acc, c :: cs =>
    match hexDigit? c with
    | some d => hexAcc (acc * 16 + d) cs
    | none => acc

/-- Model of `std::stoi(s, nullptr, 16)`: skip whitespace, optional sign,
optional `0x`/`0X` prefix (only when followed by a hex digit), then the
longest run of hex digits; `none` when no digit is found (the
`invalid_argument` exception) or the value is outside `int` range (the
`out_of_range` exception). -/
def stoiHex? (s : List Char) : Option Int :=
  let s1 := s.dropWhile isSpaceChar
  let signAndRest : Bool × List Char :=
    match s1 with
    | '-' :: t => (true, t)
    | '+' :: t => (false, t)
    | t => (false, t)
  let neg := signAndRest.1
  let s2 := signAndRest.2
  let s3 :=
    match s2 with
    | '0' :: x :: d :: t =>
      if (x == 'x' || x == 'X') && (hexDigit? d).isSome then d :: t else s2
    | _ => s2
  match s3 with
  | [] => none
  | c :: cs =>
    match hexDigit? c with
    | none => none
    | some d =>
      let v : Int := if neg then -(Int.ofNat (hexAcc d cs)) else Int.ofNat (hexAcc d cs)
      if v < -2147483648 ∨ 2147483647 < v then none else some v

/-- Model of `std::string::substr(pos, len)`: `none` models the
`out_of_range` exception thrown when `pos > size()`. -/
def substr? (s : List Char) (pos len : Nat) : Option (List Char) :=
  if pos ≤ s.length then some ((s.drop pos).take len) else none

/-- Conversion of the parsed `int` to `uint8_t` (modular). -/
def u8 (v : Int) : Nat := (v % 256).toNat

/-- Conversion of the parsed `int` to `uint16_t` (modular). -/
def u16 (v : Int) : Nat := (v % 65536).toNat

/-- `std::map<uint32_t, uint8_t>` as an association list sorted by key;
`mapInsert` models `memoryMap[byteAddress] = byteValue` (insert or
overwrite, keys kept strictly increasing). -/
def mapInsert : List (Nat × Nat) → Nat → Nat → List (Nat × Nat)
  | [], k, v => [(k, v)]
  | (k', v') :: m, k, v =>
    if k < k' then (k, v) :: (k', v') :: m
    else if k = k' then (k, v) :: m
    else (k', v') :: mapInsert m k v

/-- Lookup in the association-list map (first matching key). -/
def mapLookup : List (Nat × Nat) → Nat → Option Nat
  | [], _ => none
  | (k, v) :: m, a => if k = a then some v else mapLookup m a

/-- The state threaded through the line-processing `while` loop of `main`:
the memory map, the rolling `extendedLinearAddress`, the lines for which a
parse warning was printed, and whether the end-of-file record has broken
the loop. -/
structure LoopState where
  memoryMap : List (Nat × Nat)
  extendedLinearAddress : Nat
  warnings : List (List Char)
  done : Bool
deriving DecidableEq, Repr

/-- The state before the first line is read. -/
def initState : LoopState := ⟨[], 0, [], false⟩

/-- The three header fields extracted from a candidate record line:
`byteCount` (uint8), `addressOffset` (uint16), `recordType` (uint8).
Mirrors lines 90-92 of `hex_tool.cpp`; `none` models an exception from any
of the three `substr`/`stoi` calls. -/
def parseHeader (line : List Char) : Option (Nat × Nat × Nat) := do
  let bcRaw ← substr? line 1 2 >>= stoiHex?
  let offRaw ← substr? line 3 4 >>= stoiHex?
  let rtRaw ← substr? line 7 2 >>= stoiHex?
  pure (u8 bcRaw, u16 offRaw, u8 rtRaw)

/-- The payload loop of a Data record (lines 100-107 of `hex_tool.cpp`),
over the list of byte indices `[0, ..., byteCount)`. Each in-window byte is
parsed and inserted; an exception while parsing a byte (`none`) aborts the
loop, keeping the insertions already made (the `catch` is outside the
loop), and reports failure via the `Bool`. Out-of-window bytes are skipped
without being parsed. -/
def dataLoop (line : List Char) (startAddress endAddress currentAddress : Nat) :
    List (Nat × Nat) → List Nat → List (Nat × Nat) × Bool
  | m, [] => (m, false)
  | m, i :: is =>
    let byteAddress := (currentAddress + i) % 4294967296
    if startAddress ≤ byteAddress ∧ byteAddress < endAddress then
      match substr? line (9 + i * 2) 2 >>= stoiHex? with
      | some w => dataLoop line startAddress endAddress currentAddress
          (mapInsert m byteAddress (u8 w)) is
      | none => (m, true)
    else dataLoop line startAddress endAddress currentAddress m is

/-- One iteration of the `while (std::getline...)` loop of `main`
(lines 86-116 of `hex_tool.cpp`): skip non-record lines, parse the header,
dispatch on the record type (0x04 extended linear address, 0x00 data, 0x01
end of file, anything else ignored), and turn a caught exception into a
warning for the line. A state with `done = true` models the `break` having
already happened: the line is not interpreted. -/
def processLine (startAddress endAddress : Nat) (st : LoopState) (line : List Char) :
    LoopState :=
  if st.done then st
  else
    match line with
    | [] => st
    | c :: _ =>
      if c ≠ ':' then st
      else
        match parseHeader line with
        | none => { st with warnings := st.warnings ++ [line] }
        | some (byteCount, addressOffset, recordType) =>
          if recordType = 4 then
            match substr? line 9 4 >>= stoiHex? with
            | none => { st with warnings := st.warnings ++ [line] }
            | some w => { st with extendedLinearAddress := u16 w * 65536 }
          else if recordType = 0 then
            let currentAddress := st.extendedLinearAddress + addressOffset
            let r := dataLoop line startAddress endAddress currentAddress st.memoryMap
              (List.range byteCount)
            if r.2 then { st with memoryMap := r.1, warnings := st.warnings ++ [line] }
            else { st with memoryMap := r.1 }
          else if recordType = 1 then
            { st with done := true }
          else st

/-- The whole line loop, folded over the input lines. -/
def processLines (startAddress endAddress : Nat) (st : LoopState)
    (lines : List (List Char)) : LoopState :=
  lines.foldl (processLine startAddress endAddress) st

/-- Construction of the output buffer and the `dataFoundInRange` flag
(lines 121-131 of `hex_tool.cpp`): a vector of `bankSize` bytes filled with
0xFF, then every map entry in `[startAddress, endAddress)` is written at
index `address - startAddress`. -/
def buildBinaryData (m : List (Nat × Nat)) (startAddress bankSize endAddress : Nat) :
    List Nat × Bool :=
  m.foldl
    (fun acc p =>
      if startAddress ≤ p.1 ∧ p.1 < endAddress then
        (acc.1.set (p.1 - startAddress) p.2, true)
      else acc)
    (List.replicate bankSize 255, false)

/-- One bit step of the `crc32` inner loop of `hex_tool.cpp`. -/
def crcStep (c : Nat) : Nat :=
  if c % 2 = 1 then (c / 2) ^^^ 0xEDB88320 else c / 2

/-- Processing one input byte in `crc32`: XOR the byte into the register,
then eight bit steps. -/
def crcUpdate (crc b : Nat) : Nat := Nat.iterate crcStep 8 (crc ^^^ b)

/-- The `crc32` function of `hex_tool.cpp` (lines 37-51). -/
def crc32 (data : List Nat) : Nat :=
  (data.foldl crcUpdate 0xFFFFFFFF) ^^^ 0xFFFFFFFF

/-- The final loop state for a given input and window; `endAddress` is the
(wrapping) `startAddress + bankSize` computed at line 73 of
`hex_tool.cpp`. -/
def finalState (lines : List (List Char)) (startAddress bankSize : Nat) : LoopState :=
  processLines startAddress ((startAddress + bankSize) % 4294967296) initState lines

/-- The output buffer of a run. -/
def outputBuffer (lines : List (List Char)) (startAddress bankSize : Nat) : List Nat :=
  (buildBinaryData (finalState lines startAddress bankSize).memoryMap startAddress
    bankSize ((startAddress + bankSize) % 4294967296)).1

/-- The post-argument-parsing pipeline of `main`: parse all lines, build the
buffer, and either fail with the "No data found within the specified address
range" error (`none`, exit code 1, no output file written) or succeed with
the buffer and its CRC32 (`some`). -/
def runHexTool (lines : List (List Char)) (startAddress bankSize : Nat) :
    Option (List Nat × Nat) :=
  let r := buildBinaryData (finalState lines startAddress bankSize).memoryMap
    startAddress bankSize ((startAddress + bankSize) % 4294967296)
  if r.2 then some (r.1, crc32 r.1) else none

/-- The ASCII bytes of the string of digits 1 to 9, the standard CRC-32
check vector. -/
def checkVector : List Nat := [49, 50, 51, 52, 53, 54, 55, 56, 57]

/-! ## Invariants and helper lemmas -/

/-- The strict key ordering `std::map` maintains. -/
def SortedKeys (m : List (Nat × Nat)) : Prop :=
  List.Pairwise (fun p q : Nat × Nat => p.1 < q.1) m

/-- Well-formedness of the memory map during a run: sorted keys, and every
key inside the target window (the assembler filters per byte). -/
def MapWF (startAddress endAddress : Nat) (m : List (Nat × Nat)) : Prop :=
  SortedKeys m ∧ ∀ p ∈ m, startAddress ≤ p.1 ∧ p.1 < endAddress

theorem mapLookup_mapInsert (m : List (Nat × Nat)) (k v a : Nat) :
    mapLookup (mapInsert m k v) a = if k = a then some v else mapLookup m a := by
  induction m with
  | nil => simp [mapInsert, mapLookup]
  | cons p m ih =>
    obtain ⟨k', v'⟩ := p
    by_cases h1 : k < k'
    · simp [mapInsert, h1, mapLookup]
    · by_cases h2 : k = k'
      · subst h2
        by_cases h3 : k = a <;> simp [mapInsert, h1, mapLookup, h3]
      · by_cases h3 : k' = a
        · subst h3
          simp [mapInsert, h1, h2, mapLookup, ih, Ne.symm h2]
        · simp [mapInsert, h1, h2, mapLookup, h3, ih]

theorem mem_mapInsert (m : List (Nat × Nat)) (k v : Nat) (p : Nat × Nat)
    (h : p ∈ mapInsert m k v) : p = (k, v) ∨ p ∈ m := by
  induction m with
  | nil => simpa [mapInsert] using h
  | cons q m ih =>
    obtain ⟨k', v'⟩ := q
    by_cases h1 : k < k'
    · simp only [mapInsert, if_pos h1, List.mem_cons] at h
      rcases h with h | h | h
      · exact Or.inl h
      · exact Or.inr (by simp [h])
      · exact Or.inr (by simp [h])
    · by_cases h2 : k = k'
      · simp only [mapInsert, if_neg h1, if_pos h2, List.mem_cons] at h
        rcases h with h | h
        · exact Or.inl h
        · exact Or.inr (by simp [h])
      · simp only [mapInsert, if_neg h1, if_neg h2, List.mem_cons] at h
        rcases h with h | h
        · exact Or.inr (by simp [h])
        · rcases ih h with h' | h'
          · exact Or.inl h'
          · exact Or.inr (by simp [h'])

theorem sortedKeys_mapInsert (m : List (Nat × Nat)) (k v : Nat)
    (h : SortedKeys m) : SortedKeys (mapInsert m k v) := by
  induction m with
  | nil => simp [mapInsert, SortedKeys]
  | cons q m ih =>
    obtain ⟨k', v'⟩ := q
    rw [SortedKeys, List.pairwise_cons] at h
    obtain ⟨h0, hm⟩ := h
    by_cases h1 : k < k'
    · rw [SortedKeys, mapInsert, if_pos h1]
      refine List.Pairwise.cons ?_ ?_
      · intro q hq
        rcases List.mem_cons.1 hq with h' | h'
        · simp [h', h1]
        · exact lt_trans h1 (h0 q h')
      · exact List.Pairwise.cons h0 hm
    · by_cases h2 : k = k'
      · subst h2
        rw [SortedKeys, mapInsert, if_neg h1, if_pos rfl]
        exact List.Pairwise.cons h0 hm
      · rw [SortedKeys, mapInsert, if_neg h1, if_neg h2]
        refine List.Pairwise.cons ?_ (ih hm)
        intro q hq
        rcases mem_mapInsert m k v q hq with h' | h'
        · simp [h']; omega
        · exact h0 q h'

theorem mapLookup_mem (m : List (Nat × Nat)) (a v : Nat)
    (h : mapLookup m a = some v) : (a, v) ∈ m := by
  induction m with
  | nil => simp [mapLookup] at h
  | cons q m ih =>
    obtain ⟨k', v'⟩ := q
    by_cases h1 : k' = a
    · subst h1
      have hv : v' = v := by simpa [mapLookup] using h
      subst hv
      exact List.mem_cons_self _ _
    · simp only [mapLookup, if_neg h1] at h
      exact List.mem_cons.2 (Or.inr (ih h))

/-- Addition of distinct small offsets to a common base stays distinct
modulo `M`. -/
theorem addModInj (ca M i j : Nat) (hi : i < M) (hj : j < M)
    (h : (ca + i) % M = (ca + j) % M) : i = j := by
  rcases Nat.le_total i j with hle | hle
  · have hd : M ∣ (ca + j) - (ca + i) := (Nat.modEq_iff_dvd' (by omega)).1 h
    have he : (ca + j) - (ca + i) = j - i := by omega
    rw [he] at hd
    rcases Nat.eq_zero_or_pos (j - i) with h0 | hpos
    · omega
    · have := Nat.le_of_dvd hpos hd
      omega
  · have hd : M ∣ (ca + i) - (ca + j) := (Nat.modEq_iff_dvd' (by omega)).1 h.symm
    have he : (ca + i) - (ca + j) = i - j := by omega
    rw [he] at hd
    rcases Nat.eq_zero_or_pos (i - j) with h0 | hpos
    · omega
    · have := Nat.le_of_dvd hpos hd
      omega

theorem range_split (j bc : Nat) (h : j < bc) :
    ∃ rest, List.range bc = List.range j ++ j :: rest := by
  induction bc with
  | zero => omega
  | succ b ih =>
    rcases Nat.lt_or_ge j b with hb | hb
    · obtain ⟨rest, hr⟩ := ih hb
      exact ⟨rest ++ [b], by rw [List.range_succ, hr]; simp⟩
    · have hjb : j = b := by omega
      subst hjb
      exact ⟨[], by rw [List.range_succ]⟩

theorem u8_lt (v : Int) : u8 v < 256 := by
  have h1 : 0 ≤ v % 256 := Int.emod_nonneg v (by decide)
  have h2 : v % 256 < 256 := Int.emod_lt_of_pos v (by decide)
  unfold u8
  omega

theorem u16_lt (v : Int) : u16 v < 65536 := by
  have h1 : 0 ≤ v % 65536 := Int.emod_nonneg v (by decide)
  have h2 : v % 65536 < 65536 := Int.emod_lt_of_pos v (by decide)
  unfold u16
  omega

theorem parseHeader_bounds {line : List Char} {bc off rt : Nat}
    (h : parseHeader line = some (bc, off, rt)) :
    bc < 256 ∧ off < 65536 ∧ rt < 256 := by
  simp only [parseHeader, Option.bind_eq_bind, Option.bind_eq_some, Option.pure_def,
    Option.some.injEq, Prod.mk.injEq] at h
  obtain ⟨a, -, b, -, c, -, h1, h2, h3⟩ := h
  subst h1
  subst h2
  subst h3
  exact ⟨u8_lt a, u16_lt b, u8_lt c⟩

theorem dataLoop_nil (line : List Char) (sa ea ca : Nat) (m : List (Nat × Nat)) :
    dataLoop line sa ea ca m [] = (m, false) := rfl

theorem dataLoop_cons (line : List Char) (sa ea ca : Nat) (m : List (Nat × Nat))
    (i : Nat) (is : List Nat) :
    dataLoop line sa ea ca m (i :: is) =
      (if sa ≤ (ca + i) % 4294967296 ∧ (ca + i) % 4294967296 < ea then
        match substr? line (9 + i * 2) 2 >>= stoiHex? with
        | some w =>
          dataLoop line sa ea ca (mapInsert m ((ca + i) % 4294967296) (u8 w)) is
        | none => (m, true)
      else dataLoop line sa ea ca m is) := rfl

/-- Bytes whose address is never hit by the loop leave the lookup at that
address unchanged. -/
theorem dataLoop_untouched (line : List Char) (sa ea ca a : Nat) :
    ∀ (is : List Nat) (m : List (Nat × Nat)),
      (∀ i ∈ is, (ca + i) % 4294967296 ≠ a) →
      mapLookup (dataLoop line sa ea ca m is).1 a = mapLookup m a := by
  intro is
  induction is with
  | nil => intro m _; rfl
  | cons i is ih =>
    intro m hna
    rw [dataLoop_cons]
    split
    · cases hp : substr? line (9 + i * 2) 2 >>= stoiHex? with
      | some w =>
        rw [ih _ (fun i' hi' => hna i' (List.mem_cons_of_mem _ hi')), mapLookup_mapInsert,
          if_neg (hna i (List.mem_cons_self _ _))]
      | none => rfl
    · exact ih _ (fun i' hi' => hna i' (List.mem_cons_of_mem _ hi'))

/-- When the payload loop completes without an exception, an in-window byte
whose index is the unique one targeting its address ends up in the map. -/
theorem dataLoop_written (line : List Char) (sa ea ca : Nat) :
    ∀ (is : List Nat) (m : List (Nat × Nat)) (j : Nat) (w : Int),
      (dataLoop line sa ea ca m is).2 = false →
      is.Nodup →
      j ∈ is →
      (∀ i ∈ is, (ca + i) % 4294967296 = (ca + j) % 4294967296 → i = j) →
      sa ≤ (ca + j) % 4294967296 →
      (ca + j) % 4294967296 < ea →
      substr? line (9 + j * 2) 2 >>= stoiHex? = some w →
      mapLookup (dataLoop line sa ea ca m is).1 ((ca + j) % 4294967296) = some (u8 w) := by
  intro is
  induction is with
  | nil => intro m j w _ _ hj; exact absurd hj (List.not_mem_nil j)
  | cons i is ih =>
    intro m j w hok hnd hj huniq hlo hhi hpj
    rw [dataLoop_cons] at hok ⊢
    by_cases hin : sa ≤ (ca + i) % 4294967296 ∧ (ca + i) % 4294967296 < ea
    · rw [if_pos hin] at hok ⊢
      rcases List.mem_cons.1 hj with hji | hji
      · subst hji
        rw [hpj] at hok ⊢
        rw [dataLoop_untouched line sa ea ca _ is _ ?_, mapLookup_mapInsert, if_pos rfl]
        intro i' hi' heq
        have hij : i' = j := huniq i' (List.mem_cons_of_mem _ hi') heq
        subst hij
        exact absurd hi' (List.nodup_cons.1 hnd).1
      · cases hp : substr? line (9 + i * 2) 2 >>= stoiHex? with
        | some w' =>
          rw [hp] at hok
          exact ih _ j w hok (List.nodup_cons.1 hnd).2 hji
            (fun i' hi' heq => huniq i' (List.mem_cons_of_mem _ hi') heq) hlo hhi hpj
        | none =>
          rw [hp] at hok
          simp at hok
    · rw [if_neg hin] at hok ⊢
      rcases List.mem_cons.1 hj with hji | hji
      · subst hji
        exact absurd ⟨hlo, hhi⟩ hin
      · exact ih _ j w hok (List.nodup_cons.1 hnd).2 hji
          (fun i' hi' heq => huniq i' (List.mem_cons_of_mem _ hi') heq) hlo hhi hpj

/-- The payload loop preserves map well-formedness: it only inserts
in-window keys. -/
theorem dataLoop_wf (line : List Char) (sa ea ca : Nat) :
    ∀ (is : List Nat) (m : List (Nat × Nat)),
      MapWF sa ea m → MapWF sa ea (dataLoop line sa ea ca m is).1 := by
  intro is
  induction is with
  | nil => intro m h; exact h
  | cons i is ih =>
    intro m h
    rw [dataLoop_cons]
    split
    · rename_i hin
      cases hp : substr? line (9 + i * 2) 2 >>= stoiHex? with
      | some w =>
        refine ih _ ⟨sortedKeys_mapInsert _ _ _ h.1, ?_⟩
        intro p hp'
        rcases mem_mapInsert _ _ _ _ hp' with h' | h'
        · rw [h']
          exact ⟨hin.1, hin.2⟩
        · exact h.2 p h'
      | none => exact h
    · exact ih _ h

/-- The payload loop over a concatenation: the second part runs only when
the first part did not raise. -/
theorem dataLoop_append (line : List Char) (sa ea ca : Nat) :
    ∀ (is1 is2 : List Nat) (m : List (Nat × Nat)),
      dataLoop line sa ea ca m (is1 ++ is2) =
        (if (dataLoop line sa ea ca m is1).2 = true then dataLoop line sa ea ca m is1
         else dataLoop line sa ea ca (dataLoop line sa ea ca m is1).1 is2) := by
  intro is1
  induction is1 with
  | nil => intro is2 m; simp [dataLoop_nil]
  | cons i is1 ih =>
    intro is2 m
    rw [List.cons_append, dataLoop_cons, dataLoop_cons]
    split
    · cases hp : substr? line (9 + i * 2) 2 >>= stoiHex? with
      | some w => exact ih is2 _
      | none => simp
    · exact ih is2 _

/-- If every in-window byte of the record parses, the loop raises no
exception, whatever the out-of-window characters look like. -/
theorem dataLoop_ok (line : List Char) (sa ea ca : Nat) :
    ∀ (is : List Nat) (m : List (Nat × Nat)),
      (∀ i ∈ is, sa ≤ (ca + i) % 4294967296 → (ca + i) % 4294967296 < ea →
        (substr? line (9 + i * 2) 2 >>= stoiHex?).isSome = true) →
      (dataLoop line sa ea ca m is).2 = false := by
  intro is
  induction is with
  | nil => intro m _; rfl
  | cons i is ih =>
    intro m hall
    rw [dataLoop_cons]
    split
    · rename_i hin
      cases hp : substr? line (9 + i * 2) 2 >>= stoiHex? with
      | some w => exact ih _ (fun i' h' lo hi => hall i' (List.mem_cons_of_mem _ h') lo hi)
      | none =>
        have hs := hall i (List.mem_cons_self _ _) hin.1 hin.2
        rw [hp] at hs
        simp at hs
    · exact ih _ (fun i' h' lo hi => hall i' (List.mem_cons_of_mem _ h') lo hi)

theorem processLines_cons (sa ea : Nat) (st : LoopState) (L : List Char)
    (ls : List (List Char)) :
    processLines sa ea st (L :: ls) = processLines sa ea (processLine sa ea st L) ls := rfl

theorem processLine_done (sa ea : Nat) (st : LoopState) (line : List Char)
    (h : st.done = true) : processLine sa ea st line = st := by
  simp [processLine, h]

/-- Once the end-of-file record has broken the loop, no later line changes
the state (the `while` loop has exited). -/
theorem processLines_done (sa ea : Nat) (lines : List (List Char)) :
    ∀ (st : LoopState), st.done = true → processLines sa ea st lines = st := by
  induction lines with
  | nil => intro st _; rfl
  | cons L ls ih =>
    intro st h
    rw [processLines_cons, processLine_done sa ea st L h]
    exact ih st h

/-- Each loop iteration preserves map well-formedness. -/
theorem processLine_wf (sa ea : Nat) (st : LoopState) (line : List Char)
    (h : MapWF sa ea st.memoryMap) :
    MapWF sa ea (processLine sa ea st line).memoryMap := by
  unfold processLine
  split
  · exact h
  split
  · exact h
  split
  · exact h
  split
  · exact h
  split
  · split
    · exact h
    · exact h
  split
  · dsimp only
    split
    · exact dataLoop_wf _ _ _ _ _ _ h
    · exact dataLoop_wf _ _ _ _ _ _ h
  split
  · exact h
  · exact h

theorem processLines_wf (sa ea : Nat) (lines : List (List Char)) :
    ∀ (st : LoopState), MapWF sa ea st.memoryMap →
      MapWF sa ea (processLines sa ea st lines).memoryMap := by
  induction lines with
  | nil => intro st h; exact h
  | cons L ls ih => intro st h; exact ih _ (processLine_wf sa ea st L h)

theorem initState_wf (sa ea : Nat) : MapWF sa ea initState.memoryMap :=
  ⟨List.Pairwise.nil, by intro p hp; simp [initState] at hp⟩

theorem finalState_wf (lines : List (List Char)) (sa sz : Nat) :
    MapWF sa ((sa + sz) % 4294967296) (finalState lines sa sz).memoryMap :=
  processLines_wf _ _ lines initState (initState_wf _ _)

theorem buildFold_length (sa ea : Nat) :
    ∀ (m : List (Nat × Nat)) (buf : List Nat) (b : Bool),
      ((m.foldl (fun acc p => if sa ≤ p.1 ∧ p.1 < ea then
        (acc.1.set (p.1 - sa) p.2, true) else acc) (buf, b)).1).length = buf.length := by
  intro m
  induction m with
  | nil => intro buf b; rfl
  | cons p m ih =>
    intro buf b
    simp only [List.foldl_cons]
    split
    · rw [ih, List.length_set]
    · exact ih buf b

theorem buildFold_getElem (sa ea sz : Nat) :
    ∀ (m : List (Nat × Nat)) (buf : List Nat) (b : Bool) (i : Nat),
      SortedKeys m →
      (∀ p ∈ m, sa ≤ p.1 ∧ p.1 < ea) →
      ea ≤ sa + sz →
      buf.length = sz →
      i < sz →
      (m.foldl (fun acc p => if sa ≤ p.1 ∧ p.1 < ea then
        (acc.1.set (p.1 - sa) p.2, true) else acc) (buf, b)).1[i]? =
        (mapLookup m (sa + i)).elim buf[i]? some := by
  intro m
  induction m with
  | nil => intro buf b i _ _ _ _ _; rfl
  | cons p m ih =>
    intro buf b i hs hw hle hlen hi
    obtain ⟨a0, v0⟩ := p
    have hw0 := hw (a0, v0) (List.mem_cons_self _ _)
    have hwm : ∀ q ∈ m, sa ≤ q.1 ∧ q.1 < ea := fun q hq => hw q (List.mem_cons_of_mem _ hq)
    rw [SortedKeys, List.pairwise_cons] at hs
    simp only [List.foldl_cons, if_pos hw0]
    rw [ih (buf.set (a0 - sa) v0) true i hs.2 hwm hle
      (by rw [List.length_set]; exact hlen) hi]
    by_cases ha : a0 = sa + i
    · have hnone : mapLookup m (sa + i) = none := by
        cases hl : mapLookup m (sa + i) with
        | none => rfl
        | some w =>
          have hmem := mapLookup_mem m _ _ hl
          have := hs.1 _ hmem
          omega
      rw [hnone]
      have hidx : a0 - sa = i := by omega
      simp only [mapLookup, if_pos ha, Option.elim]
      rw [hidx, List.getElem?_set_eq_of_lt]
      omega
    · cases hl : mapLookup m (sa + i) with
      | some w => simp [mapLookup, ha, hl]
      | none =>
        have hidx : a0 - sa ≠ i := by omega
        simp only [mapLookup, if_neg ha, hl, Option.elim]
        rw [List.getElem?_set_ne hidx]

theorem buildBinaryData_length (m : List (Nat × Nat)) (sa sz ea : Nat) :
    (buildBinaryData m sa sz ea).1.length = sz := by
  unfold buildBinaryData
  rw [buildFold_length]
  exact List.length_replicate sz 255

/-- The output buffer, pointwise: every index holds the map's byte for the
corresponding absolute address, or the erase value 0xFF. -/
theorem buildBinaryData_getElem (m : List (Nat × Nat)) (sa sz ea i : Nat)
    (hwf : MapWF sa ea m) (hle : ea ≤ sa + sz) (hi : i < sz) :
    (buildBinaryData m sa sz ea).1[i]? = some ((mapLookup m (sa + i)).getD 255) := by
  unfold buildBinaryData
  rw [buildFold_getElem sa ea sz m _ _ i hwf.1 hwf.2 hle (List.length_replicate _ _) hi]
  cases hl : mapLookup m (sa + i) with
  | none => simp [List.getElem?_replicate, hi]
  | some w => rfl

theorem buildFold_found (sa ea : Nat) :
    ∀ (m : List (Nat × Nat)) (buf : List Nat) (b : Bool),
      (m.foldl (fun acc p => if sa ≤ p.1 ∧ p.1 < ea then
        (acc.1.set (p.1 - sa) p.2, true) else acc) (buf, b)).2 = true ↔
      (b = true ∨ ∃ p ∈ m, sa ≤ p.1 ∧ p.1 < ea) := by
  intro m
  induction m with
  | nil => intro buf b; simp
  | cons p m ih =>
    intro buf b
    simp only [List.foldl_cons]
    by_cases hp : sa ≤ p.1 ∧ p.1 < ea
    · rw [if_pos hp, ih]
      constructor
      · intro _
        exact Or.inr ⟨p, List.mem_cons_self _ _, hp⟩
      · intro _
        exact Or.inl rfl
    · rw [if_neg hp, ih]
      constructor
      · intro h'
        rcases h' with h' | ⟨q, hq, hq2⟩
        · exact Or.inl h'
        · exact Or.inr ⟨q, List.mem_cons_of_mem _ hq, hq2⟩
      · intro h'
        rcases h' with h' | ⟨q, hq, hq2⟩
        · exact Or.inl h'
        · rcases List.mem_cons.1 hq with h'' | h''
          · rw [h''] at hq2
            exact absurd hq2 hp
          · exact Or.inr ⟨q, h'', hq2⟩

theorem processLine_headerFail (sa ea : Nat) (st : LoopState) (t : List Char)
    (hdone : st.done = false) (hp : parseHeader (':' :: t) = none) :
    processLine sa ea st (':' :: t) = { st with warnings := st.warnings ++ [':' :: t] } := by
  simp [processLine, hdone, hp]

theorem processLine_ela (sa ea : Nat) (st : LoopState) (t : List Char) (bc off : Nat)
    (w : Int) (hdone : st.done = false) (hp : parseHeader (':' :: t) = some (bc, off, 4))
    (hu : substr? (':' :: t) 9 4 >>= stoiHex? = some w) :
    processLine sa ea st (':' :: t) = { st with extendedLinearAddress := u16 w * 65536 } := by
  simp [processLine, hdone, hp, hu]

theorem processLine_elaFail (sa ea : Nat) (st : LoopState) (t : List Char) (bc off : Nat)
    (hdone : st.done = false) (hp : parseHeader (':' :: t) = some (bc, off, 4))
    (hu : substr? (':' :: t) 9 4 >>= stoiHex? = none) :
    processLine sa ea st (':' :: t) = { st with warnings := st.warnings ++ [':' :: t] } := by
  simp [processLine, hdone, hp, hu]

theorem processLine_data (sa ea : Nat) (st : LoopState) (t : List Char) (bc off : Nat)
    (hdone : st.done = false) (hp : parseHeader (':' :: t) = some (bc, off, 0)) :
    processLine sa ea st (':' :: t) =
      (if (dataLoop (':' :: t) sa ea (st.extendedLinearAddress + off) st.memoryMap
            (List.range bc)).2 then
        { st with
            memoryMap := (dataLoop (':' :: t) sa ea (st.extendedLinearAddress + off)
              st.memoryMap (List.range bc)).1,
            warnings := st.warnings ++ [':' :: t] }
      else
        { st with
            memoryMap := (dataLoop (':' :: t) sa ea (st.extendedLinearAddress + off)
              st.memoryMap (List.range bc)).1 }) := by
  simp [processLine, hdone, hp]

theorem processLine_term (sa ea : Nat) (st : LoopState) (t : List Char) (bc off : Nat)
    (hdone : st.done = false) (hp : parseHeader (':' :: t) = some (bc, off, 1)) :
    processLine sa ea st (':' :: t) = { st with done := true } := by
  simp [processLine, hdone, hp]

/-! ## Reference CRC-32/ISO-HDLC, written from the specification text -/

/-- Modelled from the spec: one bit step of the reference CRC-32/ISO-HDLC —
"if low bit set, shift right and XOR polynomial, else shift right". -/
def crcStepSpec (c : Nat) : Nat :=
  if c % 2 = 1 then c.shiftRight 1 ^^^ 0xEDB88320 else c.shiftRight 1

/-- Modelled from the spec: per input byte, "XOR byte into low 8 bits of
register, then 8 iterations" of the bit step. -/
def crcByteSpec (c b : Nat) : Nat :=
  crcStepSpec (crcStepSpec (crcStepSpec (crcStepSpec (crcStepSpec (crcStepSpec
    (crcStepSpec (crcStepSpec (c ^^^ b))))))))

/-- Modelled from the spec: the reference CRC-32/ISO-HDLC — initial register
0xFFFFFFFF, one update per input byte, final register XORed with
0xFFFFFFFF. -/
def crc32Spec (data : List Nat) : Nat :=
  (data.foldl crcByteSpec 0xFFFFFFFF) ^^^ 0xFFFFFFFF

theorem crcStep_eq_spec : crcStep = crcStepSpec := by
  funext c
  rfl

theorem crcUpdate_eq_spec : crcUpdate = crcByteSpec := by
  funext c b
  unfold crcUpdate crcByteSpec
  rw [crcStep_eq_spec]
  rfl

/-! ## The claims -/

set_option maxRecDepth 100000 in
/-- C2: the checksum function computes CRC-32/ISO-HDLC: on every byte
sequence it agrees with the reference algorithm transcribed from the spec
text (register initialized to 0xFFFFFFFF, each byte XORed into the low 8
bits followed by 8 right-shift steps conditionally XORing the reflected
polynomial 0xEDB88320, final register XORed with 0xFFFFFFFF); on the empty
sequence it returns 0x00000000 and on the ASCII bytes of the digit string
1-9 it returns 0xCBF43926. -/
theorem hexTool_crc32_matches_iso_hdlc :
    (∀ data : List Nat, crc32 data = crc32Spec data) ∧
    crc32 [] = 0 ∧ crc32 checkVector = 0xCBF43926 := by
  refine ⟨?_, by decide, by decide⟩
  intro data
  unfold crc32 crc32Spec
  rw [crcUpdate_eq_spec]

/-- C5: processing a Terminator record (type 0x01) sets the `done` flag with
the memory map and high-address base unchanged, and afterwards no further
line is interpreted: processing any remaining lines leaves the state — and
hence the Output Buffer computed from its memory map — untouched. -/
theorem hexTool_terminator_stops_processing (sa ea : Nat) (st : LoopState)
    (t : List Char) (bc off : Nat)
    (hdone : st.done = false)
    (hp : parseHeader (':' :: t) = some (bc, off, 1)) :
    (processLine sa ea st (':' :: t)).done = true ∧
    (processLine sa ea st (':' :: t)).memoryMap = st.memoryMap ∧
    (processLine sa ea st (':' :: t)).extendedLinearAddress = st.extendedLinearAddress ∧
    ∀ rest : List (List Char),
      processLines sa ea (processLine sa ea st (':' :: t)) rest =
        processLine sa ea st (':' :: t) := by
  rw [processLine_term sa ea st t bc off hdone hp]
  exact ⟨rfl, rfl, rfl, fun rest => processLines_done sa ea rest _ rfl⟩

/-- Witness for C5 at a concrete input: the terminator line `:00000001FF`
followed by arbitrary further lines. -/
theorem hexTool_terminator_stops_processing_witness :
    (processLine 0 16 initState (':' :: "00000001FF".data)).done = true ∧
    (processLine 0 16 initState (':' :: "00000001FF".data)).memoryMap =
      initState.memoryMap ∧
    (processLine 0 16 initState (':' :: "00000001FF".data)).extendedLinearAddress =
      initState.extendedLinearAddress ∧
    ∀ rest : List (List Char),
      processLines 0 16 (processLine 0 16 initState (':' :: "00000001FF".data)) rest =
        processLine 0 16 initState (':' :: "00000001FF".data) :=
  hexTool_terminator_stops_processing 0 16 initState "00000001FF".data 0 0 rfl (by decide)

/-- C7: the run fails with the "No data found within the specified address
range" error (exit 1, before any output file is written) exactly when the
assembler stored no byte, i.e. the memory map — which by the second
conjunct contains only addresses inside the window, so it holds exactly the
in-window bytes placed by parsed Data records — is empty. Conversely, a
nonempty map makes the run succeed, however many other positions of the
buffer remain at the erase value 0xFF: padding is not an error. -/
theorem hexTool_no_data_in_window_fails (lines : List (List Char)) (sa sz : Nat) :
    (runHexTool lines sa sz = none ↔ (finalState lines sa sz).memoryMap = []) ∧
    ∀ p ∈ (finalState lines sa sz).memoryMap,
      sa ≤ p.1 ∧ p.1 < (sa + sz) % 4294967296 := by
  have hwf := finalState_wf lines sa sz
  refine ⟨?_, hwf.2⟩
  simp only [runHexTool]
  cases hb : (buildBinaryData (finalState lines sa sz).memoryMap sa sz
      ((sa + sz) % 4294967296)).2 with
  | false =>
    constructor
    · intro _
      cases hm : (finalState lines sa sz).memoryMap with
      | nil => rfl
      | cons p m' =>
        exfalso
        have hp := hwf.2 p (by rw [hm]; exact List.mem_cons_self _ _)
        have htrue : (buildBinaryData (finalState lines sa sz).memoryMap sa sz
            ((sa + sz) % 4294967296)).2 = true := by
          unfold buildBinaryData
          rw [buildFold_found]
          exact Or.inr ⟨p, by rw [hm]; exact List.mem_cons_self _ _, hp⟩
        rw [hb] at htrue
        exact Bool.noConfusion htrue
    · intro _
      rfl
  | true =>
    constructor
    · intro h
      exact absurd h (Option.some_ne_none _)
    · intro hm
      exfalso
      have hfalse : (buildBinaryData (finalState lines sa sz).memoryMap sa sz
          ((sa + sz) % 4294967296)).2 = false := by
        unfold buildBinaryData
        rw [hm]
        rfl
      rw [hb] at hfalse
      exact Bool.noConfusion hfalse

/-- C1: for every input and window with `size > 0`, the Output Buffer has
length exactly `size`, and for every index `i < size` the byte at index `i`
equals the memory-map entry for absolute address `start + i` when the map
contains one (map entries always lie inside the window the assembler
filtered on), and the erase value 0xFF otherwise. -/
theorem hexTool_output_buffer_matches_map (lines : List (List Char)) (sa sz : Nat)
    (hsz : 0 < sz) :
    (outputBuffer lines sa sz).length = sz ∧
    ∀ i, i < sz →
      (outputBuffer lines sa sz)[i]? =
        some ((mapLookup (finalState lines sa sz).memoryMap (sa + i)).getD 255) := by
  constructor
  · exact buildBinaryData_length _ _ _ _
  · intro i hi
    exact buildBinaryData_getElem _ sa sz _ i (finalState_wf lines sa sz)
      (Nat.mod_le _ _) hi

/-- Witness for C1: the DEADBEEF example of the spec — high base 0x08000000,
one 4-byte Data record at offset 0, window start 0x08000000 and size 4. -/
theorem hexTool_output_buffer_matches_map_witness :
    0 < 4 ∧
    ((outputBuffer [(":020000040800F2").data, (":04000000DEADBEEFC0").data]
        134217728 4).length = 4 ∧
      ∀ i, i < 4 →
        (outputBuffer [(":020000040800F2").data, (":04000000DEADBEEFC0").data]
            134217728 4)[i]? =
          some ((mapLookup (finalState [(":020000040800F2").data,
            (":04000000DEADBEEFC0").data] 134217728 4).memoryMap (134217728 + i)).getD
            255)) ∧
    outputBuffer [(":020000040800F2").data, (":04000000DEADBEEFC0").data] 134217728 4 =
      [222, 173, 190, 239] :=
  ⟨by decide,
    hexTool_output_buffer_matches_map
      [(":020000040800F2").data, (":04000000DEADBEEFC0").data] 134217728 4 (by decide),
    by decide⟩

/-- C3 (code bug): there is no overflow check: line 73 of `hex_tool.cpp`
computes `endAddress` as the wrapped `(start + size) mod 2^32`, so whenever
`start + size` exceeds `2^32` the comparison window is empty, no byte is
ever stored, and every such run falls into the unrelated "No data found
within the specified address range" error path (`none`) after parsing the
whole file, instead of an explicit overflow rejection. -/
theorem hexTool_overflow_not_detected (lines : List (List Char)) (sa sz : Nat)
    (hsa : sa < 4294967296) (hsz : sz < 4294967296) (hov : 4294967296 < sa + sz) :
    runHexTool lines sa sz = none := by
  have hwf := finalState_wf lines sa sz
  have hlt : (sa + sz) % 4294967296 < sa := by omega
  have hm : (finalState lines sa sz).memoryMap = [] := by
    cases hm : (finalState lines sa sz).memoryMap with
    | nil => rfl
    | cons p m' =>
      exfalso
      have hp := hwf.2 p (by rw [hm]; exact List.mem_cons_self _ _)
      omega
  simp only [runHexTool]
  rw [hm]
  rfl

/-- Witness for C3: start 0xFFFFFFFF with size 2 wraps the window to
`[0xFFFFFFFF, 1)`, so even a Data record at 0xFFFFFFFF is discarded and the
run ends in the "No data found" failure. -/
theorem hexTool_overflow_not_detected_witness :
    4294967295 < 4294967296 ∧ 2 < 4294967296 ∧ 4294967296 < 4294967295 + 2 ∧
    runHexTool [(":02000004FFFFFC").data, (":01FFFF00AB").data] 4294967295 2 = none :=
  ⟨by decide, by decide, by decide,
    hexTool_overflow_not_detected [(":02000004FFFFFC").data, (":01FFFF00AB").data]
      4294967295 2 (by decide) (by decide) (by decide)⟩

/-- C4: an Extended-High-Address record (type 0x04) sets the rolling base to
its parsed 16-bit high-address field shifted left 16 bits, replacing
whatever base was previously in force (whatever `st.extendedLinearAddress`
was) and leaving the map untouched; a Data record processed next places its
payload byte `j` at absolute address `(base + offset + j) mod 2^32`. -/
theorem hexTool_ela_record_sets_base (sa ea : Nat) (st : LoopState)
    (t1 t2 : List Char) (bc1 off1 bc2 off2 j : Nat) (w wv : Int)
    (hdone : st.done = false)
    (hp1 : parseHeader (':' :: t1) = some (bc1, off1, 4))
    (hw : substr? (':' :: t1) 9 4 >>= stoiHex? = some w)
    (hp2 : parseHeader (':' :: t2) = some (bc2, off2, 0))
    (hj : j < bc2)
    (hpv : substr? (':' :: t2) (9 + j * 2) 2 >>= stoiHex? = some wv)
    (hlo : sa ≤ (u16 w * 65536 + off2 + j) % 4294967296)
    (hhi : (u16 w * 65536 + off2 + j) % 4294967296 < ea)
    (hok : (dataLoop (':' :: t2) sa ea (u16 w * 65536 + off2) st.memoryMap
      (List.range bc2)).2 = false) :
    (processLine sa ea st (':' :: t1)).extendedLinearAddress = u16 w * 65536 ∧
    (processLine sa ea st (':' :: t1)).memoryMap = st.memoryMap ∧
    mapLookup (processLine sa ea (processLine sa ea st (':' :: t1)) (':' :: t2)).memoryMap
      ((u16 w * 65536 + off2 + j) % 4294967296) = some (u8 wv) := by
  have hb2 := (parseHeader_bounds hp2).1
  rw [processLine_ela sa ea st t1 bc1 off1 w hdone hp1 hw]
  refine ⟨rfl, rfl, ?_⟩
  rw [processLine_data sa ea { st with extendedLinearAddress := u16 w * 65536 } t2 bc2
    off2 hdone hp2]
  dsimp only
  rw [hok]
  simp only [Bool.false_eq_true, if_false]
  exact dataLoop_written (':' :: t2) sa ea _ (List.range bc2) st.memoryMap j wv hok
    (List.nodup_range bc2) (List.mem_range.2 hj)
    (fun i hi heq => addModInj _ 4294967296 i j
      (lt_trans (List.mem_range.1 hi) (by omega)) (by omega) heq)
    hlo hhi hpv

/-- Witness for C4: the spec's example — the Extended-High-Address record
`:020000040800F2` (payload bytes 0x08 0x00, so base 0x08000000) followed by
the one-byte Data record `:0100100041AE` at offset 0x0010 writes 0x41 to
absolute address 0x08000010 = 134217744. -/
theorem hexTool_ela_record_sets_base_witness :
    (processLine 134217728 134217760 initState
      (':' :: "020000040800F2".data)).extendedLinearAddress = u16 2048 * 65536 ∧
    (processLine 134217728 134217760 initState
      (':' :: "020000040800F2".data)).memoryMap = initState.memoryMap ∧
    mapLookup (processLine 134217728 134217760
      (processLine 134217728 134217760 initState (':' :: "020000040800F2".data))
      (':' :: "0100100041AE".data)).memoryMap
      ((u16 2048 * 65536 + 16 + 0) % 4294967296) = some (u8 65) :=
  hexTool_ela_record_sets_base 134217728 134217760 initState "020000040800F2".data
    "0100100041AE".data 2 0 1 16 0 2048 65 rfl (by decide) (by decide) (by decide)
    (by decide) (by decide) (by decide) (by decide) (by decide)

/-- C6: last write wins — when a Data record writes byte `w1` to an
in-window address and a later-processed Data record writes a different byte
`w2` to the same address, the map holds `w1` after the first record and
`w2` after the second, and the Output Buffer byte at that address is `w2`,
not `w1`. -/
theorem hexTool_last_write_wins (sa sz ea : Nat) (st : LoopState)
    (t1 t2 : List Char) (bc1 off1 bc2 off2 j1 j2 : Nat) (w1 w2 : Int)
    (hwf : MapWF sa ea st.memoryMap)
    (hea : ea ≤ sa + sz)
    (hdone : st.done = false)
    (hp1 : parseHeader (':' :: t1) = some (bc1, off1, 0))
    (hj1 : j1 < bc1)
    (hpv1 : substr? (':' :: t1) (9 + j1 * 2) 2 >>= stoiHex? = some w1)
    (hok1 : (dataLoop (':' :: t1) sa ea (st.extendedLinearAddress + off1) st.memoryMap
      (List.range bc1)).2 = false)
    (hp2 : parseHeader (':' :: t2) = some (bc2, off2, 0))
    (hj2 : j2 < bc2)
    (hpv2 : substr? (':' :: t2) (9 + j2 * 2) 2 >>= stoiHex? = some w2)
    (hok2 : (dataLoop (':' :: t2) sa ea (st.extendedLinearAddress + off2)
      (dataLoop (':' :: t1) sa ea (st.extendedLinearAddress + off1) st.memoryMap
        (List.range bc1)).1 (List.range bc2)).2 = false)
    (haddr : (st.extendedLinearAddress + off1 + j1) % 4294967296 =
      (st.extendedLinearAddress + off2 + j2) % 4294967296)
    (hlo : sa ≤ (st.extendedLinearAddress + off2 + j2) % 4294967296)
    (hhi : (st.extendedLinearAddress + off2 + j2) % 4294967296 < ea)
    (hne : u8 w1 ≠ u8 w2) :
    mapLookup (processLine sa ea st (':' :: t1)).memoryMap
      ((st.extendedLinearAddress + off2 + j2) % 4294967296) = some (u8 w1) ∧
    mapLookup (processLine sa ea (processLine sa ea st (':' :: t1))
      (':' :: t2)).memoryMap
      ((st.extendedLinearAddress + off2 + j2) % 4294967296) = some (u8 w2) ∧
    (buildBinaryData (processLine sa ea (processLine sa ea st (':' :: t1))
      (':' :: t2)).memoryMap sa sz ea).1[
      ((st.extendedLinearAddress + off2 + j2) % 4294967296 - sa)]? = some (u8 w2) ∧
    (buildBinaryData (processLine sa ea (processLine sa ea st (':' :: t1))
      (':' :: t2)).memoryMap sa sz ea).1[
      ((st.extendedLinearAddress + off2 + j2) % 4294967296 - sa)]? ≠ some (u8 w1) := by
  have hb1 := (parseHeader_bounds hp1).1
  have hb2 := (parseHeader_bounds hp2).1
  have hlo1 : sa ≤ (st.extendedLinearAddress + off1 + j1) % 4294967296 := by
    rw [haddr]; exact hlo
  have hhi1 : (st.extendedLinearAddress + off1 + j1) % 4294967296 < ea := by
    rw [haddr]; exact hhi
  rw [processLine_data sa ea st t1 bc1 off1 hdone hp1]
  rw [hok1]
  simp only [Bool.false_eq_true, if_false]
  rw [processLine_data sa ea
    { st with memoryMap := (dataLoop (':' :: t1) sa ea
        (st.extendedLinearAddress + off1) st.memoryMap (List.range bc1)).1 }
    t2 bc2 off2 hdone hp2]
  rw [hok2]
  simp only [Bool.false_eq_true, if_false]
  have h1 : mapLookup (dataLoop (':' :: t1) sa ea (st.extendedLinearAddress + off1)
      st.memoryMap (List.range bc1)).1
      ((st.extendedLinearAddress + off1 + j1) % 4294967296) = some (u8 w1) :=
    dataLoop_written _ sa ea _ _ _ j1 w1 hok1 (List.nodup_range bc1)
      (List.mem_range.2 hj1)
      (fun i hi heq => addModInj _ 4294967296 i j1
        (lt_trans (List.mem_range.1 hi) (by omega)) (by omega) heq)
      hlo1 hhi1 hpv1
  have h2 : mapLookup (dataLoop (':' :: t2) sa ea (st.extendedLinearAddress + off2)
      (dataLoop (':' :: t1) sa ea (st.extendedLinearAddress + off1) st.memoryMap
        (List.range bc1)).1 (List.range bc2)).1
      ((st.extendedLinearAddress + off2 + j2) % 4294967296) = some (u8 w2) :=
    dataLoop_written _ sa ea _ _ _ j2 w2 hok2 (List.nodup_range bc2)
      (List.mem_range.2 hj2)
      (fun i hi heq => addModInj _ 4294967296 i j2
        (lt_trans (List.mem_range.1 hi) (by omega)) (by omega) heq)
      hlo hhi hpv2
  have hwf2 : MapWF sa ea (dataLoop (':' :: t2) sa ea (st.extendedLinearAddress + off2)
      (dataLoop (':' :: t1) sa ea (st.extendedLinearAddress + off1) st.memoryMap
        (List.range bc1)).1 (List.range bc2)).1 :=
    dataLoop_wf _ _ _ _ _ _ (dataLoop_wf _ _ _ _ _ _ hwf)
  have hsaeq : sa + ((st.extendedLinearAddress + off2 + j2) % 4294967296 - sa) =
      (st.extendedLinearAddress + off2 + j2) % 4294967296 := by omega
  have h4 := buildBinaryData_getElem _ sa sz ea
    ((st.extendedLinearAddress + off2 + j2) % 4294967296 - sa) hwf2 hea (by omega)
  rw [hsaeq, h2] at h4
  refine ⟨?_, h2, h4, ?_⟩
  · rw [← haddr]
    exact h1
  · rw [h4]
    intro hcontra
    exact hne (Option.some.inj hcontra).symm

/-- Witness for C6: in window `[0, 4)`, the record `:0100000011EE` writes
0x11 to address 0 and the later record `:0100000022DD` overwrites it with
0x22; the final buffer byte is 0x22. -/
theorem hexTool_last_write_wins_witness :
    mapLookup (processLine 0 4 initState (':' :: "0100000011EE".data)).memoryMap
      ((initState.extendedLinearAddress + 0 + 0) % 4294967296) = some (u8 17) ∧
    mapLookup (processLine 0 4 (processLine 0 4 initState (':' :: "0100000011EE".data))
      (':' :: "0100000022DD".data)).memoryMap
      ((initState.extendedLinearAddress + 0 + 0) % 4294967296) = some (u8 34) ∧
    (buildBinaryData (processLine 0 4 (processLine 0 4 initState
      (':' :: "0100000011EE".data)) (':' :: "0100000022DD".data)).memoryMap 0 4 4).1[
      ((initState.extendedLinearAddress + 0 + 0) % 4294967296 - 0)]? = some (u8 34) ∧
    (buildBinaryData (processLine 0 4 (processLine 0 4 initState
      (':' :: "0100000011EE".data)) (':' :: "0100000022DD".data)).memoryMap 0 4 4).1[
      ((initState.extendedLinearAddress + 0 + 0) % 4294967296 - 0)]? ≠ some (u8 17) :=
  hexTool_last_write_wins 0 4 4 initState "0100000011EE".data "0100000022DD".data
    1 0 1 0 0 0 17 34 (initState_wf 0 4) (by decide) rfl (by decide) (by decide)
    (by decide) (by decide) (by decide) (by decide) (by decide) (by decide) rfl
    (by decide) (by decide) (by decide)

/-- C10: when a Data record raises partway through its payload — every byte
before index `j` parsed, the in-window byte `j` failed — the line is
recorded as a warning, the memory map keeps exactly the insertions made
before the failure, an in-window byte `i < j` already processed is still
present with its parsed value, and that value appears in the Output Buffer
built from the resulting map: the partial effects are not rolled back. -/
theorem hexTool_partial_payload_committed (sa sz ea : Nat) (st : LoopState)
    (t : List Char) (bc off j i : Nat) (wi : Int)
    (hwf : MapWF sa ea st.memoryMap)
    (hea : ea ≤ sa + sz)
    (hdone : st.done = false)
    (hp : parseHeader (':' :: t) = some (bc, off, 0))
    (hj : j < bc)
    (hpre : (dataLoop (':' :: t) sa ea (st.extendedLinearAddress + off) st.memoryMap
      (List.range j)).2 = false)
    (hjlo : sa ≤ (st.extendedLinearAddress + off + j) % 4294967296)
    (hjhi : (st.extendedLinearAddress + off + j) % 4294967296 < ea)
    (hjf : substr? (':' :: t) (9 + j * 2) 2 >>= stoiHex? = none)
    (hi : i < j)
    (hip : substr? (':' :: t) (9 + i * 2) 2 >>= stoiHex? = some wi)
    (hilo : sa ≤ (st.extendedLinearAddress + off + i) % 4294967296)
    (hihi : (st.extendedLinearAddress + off + i) % 4294967296 < ea) :
    (processLine sa ea st (':' :: t)).memoryMap =
      (dataLoop (':' :: t) sa ea (st.extendedLinearAddress + off) st.memoryMap
        (List.range j)).1 ∧
    (processLine sa ea st (':' :: t)).warnings = st.warnings ++ [':' :: t] ∧
    mapLookup (processLine sa ea st (':' :: t)).memoryMap
      ((st.extendedLinearAddress + off + i) % 4294967296) = some (u8 wi) ∧
    (buildBinaryData (processLine sa ea st (':' :: t)).memoryMap sa sz ea).1[
      ((st.extendedLinearAddress + off + i) % 4294967296 - sa)]? = some (u8 wi) := by
  have hbc := (parseHeader_bounds hp).1
  obtain ⟨rest, hsplit⟩ := range_split j bc hj
  have hfull : dataLoop (':' :: t) sa ea (st.extendedLinearAddress + off) st.memoryMap
      (List.range bc) =
      ((dataLoop (':' :: t) sa ea (st.extendedLinearAddress + off) st.memoryMap
        (List.range j)).1, true) := by
    rw [hsplit, dataLoop_append, hpre]
    simp only [Bool.false_eq_true, if_false]
    rw [dataLoop_cons, if_pos ⟨hjlo, hjhi⟩, hjf]
  rw [processLine_data sa ea st t bc off hdone hp, hfull]
  simp only [eq_self_iff_true, if_true]
  have h3 : mapLookup (dataLoop (':' :: t) sa ea (st.extendedLinearAddress + off)
      st.memoryMap (List.range j)).1
      ((st.extendedLinearAddress + off + i) % 4294967296) = some (u8 wi) :=
    dataLoop_written _ sa ea _ _ _ i wi hpre (List.nodup_range j) (List.mem_range.2 hi)
      (fun i' hi' heq => addModInj _ 4294967296 i' i
        (lt_trans (List.mem_range.1 hi') (by omega)) (by omega) heq)
      hilo hihi hip
  have hwf1 : MapWF sa ea (dataLoop (':' :: t) sa ea (st.extendedLinearAddress + off)
      st.memoryMap (List.range j)).1 := dataLoop_wf _ _ _ _ _ _ hwf
  have hsaeq : sa + ((st.extendedLinearAddress + off + i) % 4294967296 - sa) =
      (st.extendedLinearAddress + off + i) % 4294967296 := by omega
  have h4 := buildBinaryData_getElem _ sa sz ea
    ((st.extendedLinearAddress + off + i) % 4294967296 - sa) hwf1 hea (by omega)
  rw [hsaeq, h3] at h4
  exact ⟨trivial, trivial, h3, h4⟩

/-- Witness for C10: in window `[0, 4)`, the truncated record `:02000000AB`
declares two payload bytes but only carries one; byte 0 (value 0xAB at
address 0) is committed, byte 1 raises, the line is warned about, and the
buffer still shows 0xAB at index 0. -/
theorem hexTool_partial_payload_committed_witness :
    (processLine 0 4 initState (':' :: "02000000AB".data)).memoryMap =
      (dataLoop (':' :: "02000000AB".data) 0 4 (initState.extendedLinearAddress + 0)
        initState.memoryMap (List.range 1)).1 ∧
    (processLine 0 4 initState (':' :: "02000000AB".data)).warnings =
      initState.warnings ++ [':' :: "02000000AB".data] ∧
    mapLookup (processLine 0 4 initState (':' :: "02000000AB".data)).memoryMap
      ((initState.extendedLinearAddress + 0 + 0) % 4294967296) = some (u8 171) ∧
    (buildBinaryData (processLine 0 4 initState
      (':' :: "02000000AB".data)).memoryMap 0 4 4).1[
      ((initState.extendedLinearAddress + 0 + 0) % 4294967296 - 0)]? = some (u8 171) :=
  hexTool_partial_payload_committed 0 4 4 initState "02000000AB".data 2 0 1 0 171
    (initState_wf 0 4) (by decide) rfl (by decide) (by decide) (by decide) (by decide)
    (by decide) (by decide) (by decide) (by decide) (by decide) (by decide)

/-- C8 counterexample: the candidate record line `:010000004G` has a hex
field (its payload byte field, characters `4G`) containing the malformed
hex digit `G`, yet processing produces no parse failure at all: `stoi`
parses the valid leading digit and the line is accepted, committing the
(wrong) byte 0x04 to the map with no warning recorded. -/
theorem hexTool_malformed_digit_accepted_cex :
    hexDigit? 'G' = none ∧
    (":010000004G").data[10]? = some 'G' ∧
    (processLines 0 16 initState [(":010000004G").data]).warnings = [] ∧
    (processLines 0 16 initState [(":010000004G").data]).memoryMap = [(0, 4)] :=
  ⟨by decide, by decide, by decide, by decide⟩

/-- C8 (amended): a candidate record line produces a recoverable parse
failure exactly when a field extraction raises — the field's substring
starts past the end of the line, or `stoi` finds no leading hex digit in
the extracted text (a field beginning with a valid digit parses as that
digit prefix even when later characters are malformed, and a partially
truncated field parses as the shorter value, both without failure). On
such a failure the line is appended to the warnings (identifying it), the
terminator flag is not set, the high-address base is unchanged, and
processing continues with the next line: the run is not aborted. -/
theorem hexTool_field_extraction_failure_warns (sa ea : Nat) (st : LoopState)
    (t : List Char) (rest : List (List Char))
    (hdone : st.done = false)
    (hfail : parseHeader (':' :: t) = none ∨
      (∃ bc off, parseHeader (':' :: t) = some (bc, off, 4) ∧
        substr? (':' :: t) 9 4 >>= stoiHex? = none) ∨
      (∃ bc off, parseHeader (':' :: t) = some (bc, off, 0) ∧
        (dataLoop (':' :: t) sa ea (st.extendedLinearAddress + off) st.memoryMap
          (List.range bc)).2 = true)) :
    (processLine sa ea st (':' :: t)).warnings = st.warnings ++ [':' :: t] ∧
    (processLine sa ea st (':' :: t)).done = false ∧
    (processLine sa ea st (':' :: t)).extendedLinearAddress =
      st.extendedLinearAddress ∧
    processLines sa ea st ((':' :: t) :: rest) =
      processLines sa ea (processLine sa ea st (':' :: t)) rest := by
  rw [processLines_cons]
  rcases hfail with hf | ⟨bc, off, hf, hu⟩ | ⟨bc, off, hf, hl⟩
  · rw [processLine_headerFail sa ea st t hdone hf]
    exact ⟨rfl, hdone, rfl, rfl⟩
  · rw [processLine_elaFail sa ea st t bc off hdone hf hu]
    exact ⟨rfl, hdone, rfl, rfl⟩
  · rw [processLine_data sa ea st t bc off hdone hf, hl]
    simp [hdone]

/-- Witness for C8 (amended): in window `[0, 16)`, the line `:01000000`
declares one payload byte but carries none; extracting the byte yields the
empty string, `stoi` raises, the line is warned about and a following line
is still processed. -/
theorem hexTool_field_extraction_failure_warns_witness :
    (processLine 0 16 initState (':' :: "01000000".data)).warnings =
      initState.warnings ++ [':' :: "01000000".data] ∧
    (processLine 0 16 initState (':' :: "01000000".data)).done = false ∧
    (processLine 0 16 initState (':' :: "01000000".data)).extendedLinearAddress =
      initState.extendedLinearAddress ∧
    processLines 0 16 initState ((':' :: "01000000".data) :: [[]]) =
      processLines 0 16 (processLine 0 16 initState (':' :: "01000000".data)) [[]] :=
  hexTool_field_extraction_failure_warns 0 16 initState "01000000".data [[]] rfl
    (Or.inr (Or.inr ⟨1, 0, by decide, by decide⟩))

/-- C9 counterexample: with window `[0, 1)`, the Data record line
`:02000000ABGG` has malformed hex (`GG`) only in its second payload byte,
whose address 1 lies outside the window; the whole line is processed
without any parse failure — no warning — because out-of-window payload
bytes are never extracted or validated, and only the in-window byte 0xAB
is kept. -/
theorem hexTool_out_of_window_malformed_ignored_cex :
    hexDigit? 'G' = none ∧
    (":02000000ABGG").data[11]? = some 'G' ∧
    (":02000000ABGG").data[12]? = some 'G' ∧
    (processLines 0 1 initState [(":02000000ABGG").data]).warnings = [] ∧
    (processLines 0 1 initState [(":02000000ABGG").data]).memoryMap = [(0, 171)] :=
  ⟨by decide, by decide, by decide, by decide, by decide⟩

/-- C9 (amended): only in-window payload bytes of a Data record are parsed.
If every payload byte whose computed address falls inside the window parses
successfully, the record produces no parse failure — the warnings are
unchanged — regardless of the characters at out-of-window payload
positions, which are skipped without validation. -/
theorem hexTool_only_in_window_bytes_parsed (sa ea : Nat) (st : LoopState)
    (t : List Char) (bc off : Nat)
    (hdone : st.done = false)
    (hp : parseHeader (':' :: t) = some (bc, off, 0))
    (hall : ∀ i, i < bc →
      sa ≤ (st.extendedLinearAddress + off + i) % 4294967296 →
      (st.extendedLinearAddress + off + i) % 4294967296 < ea →
      (substr? (':' :: t) (9 + i * 2) 2 >>= stoiHex?).isSome = true) :
    (processLine sa ea st (':' :: t)).warnings = st.warnings := by
  rw [processLine_data sa ea st t bc off hdone hp]
  rw [dataLoop_ok (':' :: t) sa ea (st.extendedLinearAddress + off) (List.range bc)
    st.memoryMap (fun i hi lo hi2 => hall i (List.mem_range.1 hi) lo hi2)]
  simp

/-- Witness for C9 (amended): window `[0, 1)` and the line `:02000000CDZY`
— its out-of-window second payload byte field holds the non-hex text `ZY`,
yet no warning results. -/
theorem hexTool_only_in_window_bytes_parsed_witness :
    hexDigit? 'Z' = none ∧
    (processLine 0 1 initState (':' :: "02000000CDZY".data)).warnings =
      initState.warnings :=
  ⟨by decide,
    hexTool_only_in_window_bytes_parsed 0 1 initState "02000000CDZY".data 2 0 rfl
      (by decide) (by decide)⟩
